import Mathlib

/-!
Verification of the inference request dispatcher of
`opencompass/models/openai_api.py` (classes `OpenAI`, `OpenAISDK`,
`AsyncOpenAI`, `OpenAIExtra`).

The Python source is shallowly embedded: pure helpers become Lean
functions, the stateful retry loop of `OpenAI._generate` becomes a
function over an explicit pool state and an explicit finite script of
per-attempt outcomes, and external collaborators (the `tiktoken`
tokenizer, the `jieba` segmenter, `str()` of a `PromptList` object)
become function parameters.
-/

namespace OC

/-! ## Character classes and Python string helpers -/

/-- Python `str` whitespace relevant here (ASCII): the characters removed by
`str.strip()` and used as separators by no-argument `str.split()`. -/
def isPyWs (c : Char) : Bool :=
  c.toNat = 32 || c.toNat = 9 || c.toNat = 10 || c.toNat = 11 ||
  c.toNat = 12 || c.toNat = 13

/-- Characters matched by the regex class `[A-Za-z0-9]` used in
`get_token_len` of `AsyncOpenAI` / `OpenAIExtra`. -/
def isLatinAlnum (c : Char) : Bool :=
  (65 ≤ c.toNat && c.toNat ≤ 90) || (97 ≤ c.toNat && c.toNat ≤ 122) ||
  (48 ≤ c.toNat && c.toNat ≤ 57)

/-- Characters matched by `[一-鿿]` in `get_token_len`. -/
def isCJKFull (c : Char) : Bool :=
  0x4e00 ≤ c.toNat && c.toNat ≤ 0x9FFF

/-- Characters matched by `[一-龥]`, the pattern `bin_trim` uses to
decide between the jieba segmenter and space splitting. -/
def isCJKTrim (c : Char) : Bool :=
  0x4e00 ≤ c.toNat && c.toNat ≤ 0x9fa5

/-- Python `re.findall` with a pattern of the form `[class]+`: the list of
maximal runs of characters satisfying `p`, in order. -/
def reFindRuns (p : Char → Bool) : List Char → List (List Char)
  | [] => []
  | c :: rest =>
    if p c then
      match reFindRuns p rest, rest with
      | w :: ws, c2 :: _ =>
        if p c2 then (c :: w) :: ws else [c] :: w :: ws
      | _, _ => [[c]]
    else reFindRuns p rest

/-- Python `s.split()` (no separator argument): split on runs of whitespace,
discarding empty fragments. -/
def pySplitWs : List Char → List (List Char)
  | [] => []
  | c :: rest =>
    if isPyWs c then pySplitWs rest
    else
      match rest with
      | [] => [[c]]
      | c2 :: _ =>
        if isPyWs c2 then [c] :: pySplitWs rest
        else
          match pySplitWs rest with
          | [] => [[c]]
          | w :: ws => (c :: w) :: ws

/-- Python `s.split(' ')`: split on every single space, keeping empty
fragments (`''.split(' ') == ['']`, `'a  b'.split(' ') == ['a','','b']`). -/
def pySplitSpace : List Char → List (List Char)
  | [] => [[]]
  | c :: rest =>
    match pySplitSpace rest with
    | [] => [[]]
    | w :: ws => if c = ' ' then [] :: w :: ws else (c :: w) :: ws

/-- Python `s.strip()` restricted to ASCII whitespace. -/
def pyStrip (s : String) : String :=
  ⟨((s.data.dropWhile isPyWs).reverse.dropWhile isPyWs).reverse⟩

/-- Python `sep.join(words)`. -/
def joinSep (sep : String) : List String → String
  | [] => ""
  | [w] => w
  | w :: rest => w ++ sep ++ joinSep sep rest

/-- Python `needle in hay` on strings restricted to list prefixes:
`startsWithL n h` holds when `n` is an initial segment of `h`. -/
def startsWithL : List Char → List Char → Bool
  | [], _ => true
  | _ :: _, [] => false
  | a :: as, b :: bs => a = b && startsWithL as bs

/-- Python substring containment `needle in hay`. -/
def containsSub (needle : List Char) : List Char → Bool
  | [] => startsWithL needle []
  | c :: rest => startsWithL needle (c :: rest) || containsSub needle rest

/-- Python `needle in hay` for `String`s. -/
def strContains (hay needle : String) : Bool :=
  containsSub needle.data hay.data

/-! ## Token Estimator (`AsyncOpenAI.get_token_len` / `OpenAIExtra.get_token_len`)

```python
english_parts = re.findall(r'[A-Za-z0-9]+', prompt)
chinese_parts = re.findall(r'[一-鿿]+', prompt)
english_count = sum(len(part.split()) for part in english_parts)
chinese_count = sum(len(part) for part in chinese_parts)
return english_count + chinese_count
``` -/

/-- Heuristic token estimator of `AsyncOpenAI` / `OpenAIExtra`. -/
def get_token_len (prompt : String) : Nat :=
  let english_parts := reFindRuns isLatinAlnum prompt.data
  let chinese_parts := reFindRuns isCJKFull prompt.data
  let english_count := (english_parts.map fun part => (pySplitWs part).length).sum
  let chinese_count := (chinese_parts.map List.length).sum
  english_count + chinese_count

/-! ## Adaptive Truncator (`OpenAI.bin_trim`)

```python
token_len = self.get_token_len(prompt)
if token_len <= num_token:
    return prompt
pattern = re.compile(r'[一-龥]')
if pattern.search(prompt):
    words = list(jieba.cut(prompt, cut_all=False)); sep = ''
else:
    words = prompt.split(' '); sep = ' '
l, r = 1, len(words)
while l + 2 < r:
    mid = (l + r) // 2
    ... candidate per self.mode ...
    if self.get_token_len(cur_prompt) <= num_token: l = mid
    else: r = mid
... materialize candidate for l ...
```

`self.get_token_len` (tiktoken-backed in class `OpenAI`, the regex heuristic
in `AsyncOpenAI`/`OpenAIExtra`) and `jieba.cut` are passed as the parameters
`tok` and `cut`. -/

/-- Truncation modes of the dispatcher (`self.mode`). -/
inductive TrimMode where
  | off    -- 'none'
  | front
  | mid
  | rear
deriving DecidableEq, Repr

/-- Candidate fragment for unit count `k`: `front` keeps `words[-k:]`,
`mid` adjoins `words[:k]` and `words[-k:]`, `rear` keeps `words[:k]`.
`bin_trim` is never reached with mode `'none'` (the call site guards on it;
the source would hit an unbound `cur_prompt` there), so that case is mapped
to the empty string. -/
def frag (sep : String) (ws : List String) (mode : TrimMode) (k : Nat) : String :=
  match mode with
  | .front => joinSep sep (ws.drop (ws.length - k))
  | .mid   => joinSep sep (ws.take k) ++ joinSep sep (ws.drop (ws.length - k))
  | .rear  => joinSep sep (ws.take k)
  | .off   => ""

/-- The `while l + 2 < r` binary-search loop of `bin_trim`, returning the
final `l`. Each iteration strictly shrinks `r - l`, so `fuel = len(words)`
(passed at the call site) is never exhausted. -/
def binSearchLoop (tok : String → Nat) (sep : String) (ws : List String)
    (mode : TrimMode) (budget : Int) : Nat → Nat → Nat → Nat
  | 0, l, _ => l
  | fuel + 1, l, r =>
    if l + 2 < r then
      let mid := (l + r) / 2
      if (tok (frag sep ws mode mid) : Int) ≤ budget then
        binSearchLoop tok sep ws mode budget fuel mid r
      else
        binSearchLoop tok sep ws mode budget fuel l mid
    else l

/-- Whether `re.compile(r'[一-龥]').search(prompt)` finds a match. -/
def hasCJKTrim (s : String) : Bool := s.data.any isCJKTrim

/-- The word units `bin_trim` splits the prompt into. -/
def trimUnits (cut : String → List String) (prompt : String) : List String :=
  if hasCJKTrim prompt then cut prompt
  else (pySplitSpace prompt.data).map fun w => ⟨w⟩

/-- The separator `bin_trim` rejoins the units with. -/
def trimSep (prompt : String) : String :=
  if hasCJKTrim prompt then "" else " "

/-- `OpenAI.bin_trim`, with the token estimator `tok` and the jieba
segmenter `cut` as parameters. -/
def bin_trim (tok : String → Nat) (cut : String → List String)
    (mode : TrimMode) (prompt : String) (num_token : Int) : String :=
  if (tok prompt : Int) ≤ num_token then prompt
  else
    let ws := trimUnits cut prompt
    let sep := trimSep prompt
    frag sep ws mode (binSearchLoop tok sep ws mode num_token ws.length 1 ws.length)

/-! ## `OpenAI._generate`: context window, envelope, pre-request ceiling -/

/-- Pattern-derived context window (lines 203-211 of the source):
a `32768` default, then `'32k' in path` / `'16k' in path` /
`'gpt-4' in path` / `'gpt-3.5' in path` checked in order. -/
def contextWindowOf (path : String) : Nat :=
  if strContains path "32k" then 32768
  else if strContains path "16k" then 16384
  else if strContains path "gpt-4" then 8192
  else if strContains path "gpt-3.5" then 4097
  else 32768

/-- Roles of a role-tagged (`PromptList`) input item, per the input
contract. -/
inductive SrcRole where
  | HUMAN
  | BOT
  | SYSTEM
deriving DecidableEq, Repr

/-- One turn of a role-tagged input. -/
structure PromptItem where
  role : SrcRole
  prompt : String
deriving DecidableEq, Repr

/-- A `_generate` input: a flat string or a `PromptList`. -/
inductive PromptInput where
  | str (s : String)
  | plist (items : List PromptItem)
deriving DecidableEq, Repr

/-- One message of the request envelope. -/
structure Msg where
  role : String
  content : String
deriving DecidableEq, Repr

/-- Role translation of lines 222-230: HUMAN ↦ user, BOT ↦ assistant,
SYSTEM ↦ system; content is copied verbatim. -/
def msgOfItem (item : PromptItem) : Msg :=
  { role := match item.role with
      | .HUMAN => "user"
      | .BOT => "assistant"
      | .SYSTEM => "system",
    content := item.prompt }

/-- Envelope construction (lines 218-230): a flat string becomes a single
`user` turn, a `PromptList` is mapped turn by turn. -/
def buildMessages : PromptInput → List Msg
  | .str s => [{ role := "user", content := s }]
  | .plist items => items.map msgOfItem

/-- Python `str(input)`. For a flat string this is the string itself; for a
`PromptList` object it is the (externally defined) `__str__` of that class,
passed as the parameter `strOfPlist`. -/
def strOfInput (strOfPlist : List PromptItem → String) : PromptInput → String
  | .str s => s
  | .plist items => strOfPlist items

/-- Everything `_generate` computes before entering the retry loop. -/
structure PrepOut where
  context_window : Int
  input2 : PromptInput
  messages : List Msg
  max_out_len : Int
deriving Repr

/-- Lines 201-240 of `OpenAI._generate`: pattern context window; for a flat
string with truncation enabled, replace the window by `max_seq_len` and
`bin_trim` the input; build the envelope; compute the output-token ceiling
`min(max_out_len, context_window - get_token_len(str(input)) - 100)`. -/
def prepare (tok : String → Nat) (cut : String → List String)
    (strOfPlist : List PromptItem → String) (mode : TrimMode) (path : String)
    (max_seq_len : Int) (input : PromptInput) (max_out_len : Int) : PrepOut :=
  let cw0 : Int := contextWindowOf path
  let step : Int × PromptInput :=
    match input with
    | .str s =>
      if mode = TrimMode.off then (cw0, .str s)
      else (max_seq_len, .str (bin_trim tok cut mode s (max_seq_len - 100 - max_out_len)))
    | .plist items => (cw0, .plist items)
  let messages := buildMessages step.2
  let ceiling := min max_out_len (step.1 - (tok (strOfInput strOfPlist step.2) : Int) - 100)
  ⟨step.1, step.2, messages, ceiling⟩

/-! ## Credential Rotator (lines 245-271)

```python
with Lock():
    if len(self.invalid_keys) == len(self.keys):
        raise RuntimeError('All keys have insufficient quota.')
    while True:
        self.key_ctr += 1
        if self.key_ctr == len(self.keys):
            self.key_ctr = 0
        if self.keys[self.key_ctr] not in self.invalid_keys:
            break
    key = self.keys[self.key_ctr]
```

`invalid_keys` is a Python `set`; it is modelled as a duplicate-free list,
and `markInvalid` (i.e. `set.add`) preserves that. -/

/-- `self.invalid_keys.add(key)`. -/
def markInvalid (k : String) (inv : List String) : List String :=
  if k ∈ inv then inv else inv ++ [k]

/-- Outcome of the key-selection block. `diverge` marks the case in which
the `while True` scan never breaks (its state is just `key_ctr`, which
cycles with period `len(keys)`, so not breaking within `len(keys)` steps
means never). -/
inductive KeyResult where
  | raisedAllInvalid
  | got (key : String) (ctr : Nat)
  | diverge
deriving DecidableEq, Repr

/-- One-or-more steps of the cursor scan: increment, wrap at `len(keys)`,
stop at a key outside the invalid set. -/
def findValid (keys inv : List String) : Nat → Nat → Option Nat
  | 0, _ => none
  | fuel + 1, ctr =>
    let c1 := ctr + 1
    let c2 := if c1 = keys.length then 0 else c1
    match keys[c2]? with
    | none => none
    | some k => if k ∈ inv then findValid keys inv fuel c2 else some c2

/-- The whole selection block: guard, scan, read the selected key. -/
def nextCredential (keys inv : List String) (ctr : Nat) : KeyResult :=
  if inv.length = keys.length then .raisedAllInvalid
  else
    match findValid keys inv keys.length ctr with
    | some c =>
      match keys[c]? with
      | some k => .got k c
      | none => .diverge
    | none => .diverge

/-- Organization cursor advance (lines 266-271): only when the org pool is
non-empty (`if self.orgs:`), increment and wrap. -/
def advanceOrg (orgs : List String) (octr : Nat) : Nat :=
  if orgs.isEmpty then octr
  else
    let c := octr + 1
    if c = orgs.length then 0 else c

/-! ## Request Executor retry loop (lines 241-347)

One loop iteration = wait on the rate limiter, select a credential, advance
the org cursor, post the request, classify the outcome. The environment
(network + provider) is modelled as a finite script of per-attempt
outcomes; each iteration consumes one entry. The constructors correspond
to the classification branches of the source:

  * `connError`  — `requests.ConnectionError` (line 306): log, `continue`;
  * `jsonError`  — `requests.JSONDecodeError` (line 311): log, `continue`;
  * `success c`  — a response whose `choices` extraction succeeds, with
    extracted content `c` (lines 316-323);
  * `errorResp code etype` — `choices` raises `KeyError` and the body has
    an `error` object with the given `code` and `type` (lines 324-342);
  * `otherResp`  — `choices` raises `KeyError` and there is no `error`
    key: the iteration falls through to `max_num_retries += 1`.

The rate-limiter wait has no effect on control flow and is not modelled.
The `logprobs=False, is_chat=True` success extraction is used. -/

inductive ApiResponse where
  | connError
  | jsonError
  | success (content : String)
  | errorResp (code : String) (etype : String)
  | otherResp
deriving DecidableEq, Repr

/-- Shared mutable state of one dispatcher instance read and written by the
loop. -/
structure PoolState where
  invalid_keys : List String
  key_ctr : Nat
  org_ctr : Nat
deriving DecidableEq, Repr

/-- How a `_generate` call ends. `pending` means the outcome script ran out
while the loop still wanted to issue another request. -/
inductive GenOutcome where
  | result (s : String)
  | allKeysInvalid
  | retriesExhausted (n : Nat)
  | scanDiverge
  | pending
deriving DecidableEq, Repr

/-- Result of running the loop: final outcome, final pool state, number of
request attempts issued (outcomes consumed), and the unconsumed script. -/
structure RunOut where
  out : GenOutcome
  state : PoolState
  attempts : Nat
  remaining : List ApiResponse
deriving DecidableEq, Repr

/-- The `while max_num_retries < self.retry` loop of `OpenAI._generate`,
with `k` the current value of `max_num_retries`. Note which branches
leave `k` unchanged (`continue` without increment in the source). -/
def runLoop (retry : Nat) (keys orgs : List String) :
    PoolState → Nat → List ApiResponse → RunOut
  | st, k, outcomes =>
    if k < retry then
      match nextCredential keys st.invalid_keys st.key_ctr with
      | .raisedAllInvalid => ⟨.allKeysInvalid, st, 0, outcomes⟩
      | .diverge => ⟨.scanDiverge, st, 0, outcomes⟩
      | .got key c =>
        let st1 : PoolState := ⟨st.invalid_keys, c, advanceOrg orgs st.org_ctr⟩
        match outcomes with
        | [] => ⟨.pending, st1, 0, []⟩
        | o :: rest =>
          match o with
          | .connError =>
            let r := runLoop retry keys orgs st1 k rest
            ⟨r.out, r.state, r.attempts + 1, r.remaining⟩
          | .jsonError =>
            let r := runLoop retry keys orgs st1 k rest
            ⟨r.out, r.state, r.attempts + 1, r.remaining⟩
          | .success content => ⟨.result (pyStrip content), st1, 1, rest⟩
          | .errorResp code etype =>
            if code = "rate_limit_exceeded" then
              let r := runLoop retry keys orgs st1 k rest
              ⟨r.out, r.state, r.attempts + 1, r.remaining⟩
            else if code = "insufficient_quota" then
              let r := runLoop retry keys orgs
                ⟨markInvalid key st1.invalid_keys, st1.key_ctr, st1.org_ctr⟩ k rest
              ⟨r.out, r.state, r.attempts + 1, r.remaining⟩
            else if code = "invalid_prompt" then ⟨.result "", st1, 1, rest⟩
            else if etype = "invalid_prompt" then ⟨.result "", st1, 1, rest⟩
            else
              let r := runLoop retry keys orgs st1 (k + 1) rest
              ⟨r.out, r.state, r.attempts + 1, r.remaining⟩
          | .otherResp =>
            let r := runLoop retry keys orgs st1 (k + 1) rest
            ⟨r.out, r.state, r.attempts + 1, r.remaining⟩
    else ⟨.retriesExhausted k, st, 0, outcomes⟩

/-- `OpenAI._generate` end to end: the pre-loop preparation, the early
return `''` when the output-token ceiling is non-positive (lines 239-240,
before any request), else the retry loop. -/
def generateOne (tok : String → Nat) (cut : String → List String)
    (strOfPlist : List PromptItem → String) (mode : TrimMode) (path : String)
    (max_seq_len : Int) (retry : Nat) (keys orgs : List String)
    (st : PoolState) (input : PromptInput) (max_out_len : Int)
    (outcomes : List ApiResponse) : RunOut :=
  let p := prepare tok cut strOfPlist mode path max_seq_len input max_out_len
  if p.max_out_len ≤ 0 then ⟨.result "", st, 0, outcomes⟩
  else runLoop retry keys orgs st 0 outcomes

/-! ## Payload construction (lines 273-300) and the temperature override -/

/-- JSON-ish values appearing in the request dict. -/
inductive JVal where
  | s (v : String)
  | i (v : Int)
  | q (v : Rat)
  | b (v : Bool)
  | msgs (v : List Msg)
deriving DecidableEq, Repr

/-- Lines 172-173 of `OpenAI.generate`: a non-`None` instance temperature
overrides the per-call argument. Sampling temperatures are modelled as
rationals. -/
def generateTemperature (instTemp : Option Rat) (callTemp : Rat) : Rat :=
  match instTemp with
  | some t => t
  | none => callTemp

/-- The default of the `temperature` constructor argument (line 91):
`0.0`, not `None`. -/
def defaultTemperature : Option Rat := some 0

/-- `remove_none_val` (lines 298-300): drop dict entries whose value is
`None`. -/
def remove_none_val (d : List (String × Option JVal)) : List (String × JVal) :=
  d.filterMap fun e => e.2.map fun v => (e.1, v)

/-- The chat payload (lines 275-284) before `remove_none_val`:
`stop=None` is always dropped; `logprobs` defaults to `False` (kept);
`top_logprobs` defaults to `None` (dropped). -/
def chatDict (path : String) (messages : List Msg) (max_tokens : Int)
    (logprobs : Option Bool) (top_logprobs : Option Nat) (temperature : Rat) :
    List (String × Option JVal) :=
  [("model", some (.s path)),
   ("messages", some (.msgs messages)),
   ("max_tokens", some (.i max_tokens)),
   ("n", some (.i 1)),
   ("logprobs", logprobs.map .b),
   ("top_logprobs", top_logprobs.map fun n => .i n),
   ("stop", none),
   ("temperature", some (.q temperature))]

/-- The non-chat payload (lines 286-296) before `remove_none_val`: the
message contents are flattened into one newline-joined prompt. -/
def completionDict (path : String) (messages : List Msg) (max_tokens : Int)
    (temperature : Rat) : List (String × Option JVal) :=
  [("model", some (.s path)),
   ("prompt", some (.s (joinSep "\n" (messages.map Msg.content)))),
   ("max_tokens", some (.i max_tokens)),
   ("temperature", some (.q temperature))]

/-- `data` as posted (after `remove_none_val`), for either payload shape. -/
def buildData (is_chat : Bool) (path : String) (messages : List Msg)
    (max_tokens : Int) (logprobs : Option Bool) (top_logprobs : Option Nat)
    (temperature : Rat) : List (String × JVal) :=
  if is_chat then
    remove_none_val (chatDict path messages max_tokens logprobs top_logprobs temperature)
  else
    remove_none_val (completionDict path messages max_tokens temperature)

/-! ## Concurrent access to the key cursor (lines 245-264)

The source wraps the selection block in `with Lock():` — but `Lock()`
constructs a *fresh* `threading.Lock` at every call, so no two callers ever
contend on the same lock object and the block is not a critical section:
every interleaving of its memory accesses is possible.

Each worker is modelled as a small state machine over the shared `key_ctr`;
one `wStep` is one atomic group of accesses:

  * `loopStart`   → read `self.key_ctr` into a local;
  * `afterRead t` → write back the incremented-and-wrapped value
    (`self.key_ctr += 1` and the wrap test, collapsed into read-then-write);
  * `afterWrite`  → re-read `self.key_ctr`, test membership in the invalid
    set, and either loop again or select `self.keys[self.key_ctr]`.

Every behavior of this machine is a behavior of the source under some
thread schedule (the source performs at least these shared accesses at
this granularity). -/

inductive WPhase where
  | loopStart
  | afterRead (t : Nat)
  | afterWrite
  | selected (key : String)
  | stuck
deriving DecidableEq, Repr

/-- One micro-step of one worker against the shared cursor. -/
def wStep (keys inv : List String) (ph : WPhase) (ctr : Nat) : WPhase × Nat :=
  match ph with
  | .loopStart => (.afterRead ctr, ctr)
  | .afterRead t =>
    let t1 := t + 1
    let t2 := if t1 = keys.length then 0 else t1
    (.afterWrite, t2)
  | .afterWrite =>
    match keys[ctr]? with
    | some key => if key ∈ inv then (.loopStart, ctr) else (.selected key, ctr)
    | none => (.stuck, ctr)
  | ph => (ph, ctr)

/-- Run two workers under a schedule (`true` = worker 1 moves). -/
def runSched (keys inv : List String) :
    List Bool → WPhase × WPhase × Nat → WPhase × WPhase × Nat
  | [], s => s
  | b :: rest, (p1, p2, ctr) =>
    if b then
      let s1 := wStep keys inv p1 ctr
      runSched keys inv rest (s1.1, p2, s1.2)
    else
      let s2 := wStep keys inv p2 ctr
      runSched keys inv rest (p1, s2.1, s2.2)

/-- Number of outcomes in a script that consume a retry slot, i.e. fall
through every `continue`/`return` branch to `max_num_retries += 1`:
responses with neither `choices` nor `error`, and error responses whose
code and type match none of the handled cases. -/
def countCounted : List ApiResponse → Nat
  | [] => 0
  | o :: rest =>
    (match o with
     | .otherResp => 1
     | .errorResp code etype =>
       if code = "rate_limit_exceeded" ∨ code = "insufficient_quota" ∨
          code = "invalid_prompt" ∨ etype = "invalid_prompt" then 0
       else 1
     | _ => 0) + countCounted rest

/-- Number of scan steps needed to move the key cursor from `ctr` to
index `j` (cursor advances to `ctr+1` wrapping at `len`). -/
def distTo (len ctr j : Nat) : Nat :=
  if ctr < j then j - ctr else len + j - ctr

end OC

namespace OC

/-! # Theorems -/

/-- Claim C6: the chat envelope built from a flat string consists of
exactly one turn, with role `user` and content equal to the original
string. -/
theorem C6_envelope_of_flat_string (s : String) :
    buildMessages (.str s) = [{ role := "user", content := s }] := rfl

/-- Claim C4: `_generate` computes the output ceiling
`min(max_out_len, context_window - get_token_len(str(input)) - 100)`
before any request, and whenever that ceiling is non-positive it returns
the empty string with zero request attempts and an untouched outcome
script (no network call, no retry). -/
theorem C4_skip_when_no_budget (tok : String → Nat) (cut : String → List String)
    (strOfPlist : List PromptItem → String) (mode : TrimMode) (path : String)
    (max_seq_len : Int) (retry : Nat) (keys orgs : List String) (st : PoolState)
    (input : PromptInput) (max_out_len : Int) (outcomes : List ApiResponse)
    (h : (prepare tok cut strOfPlist mode path max_seq_len input max_out_len).max_out_len ≤ 0) :
    (prepare tok cut strOfPlist mode path max_seq_len input max_out_len).max_out_len
      = min max_out_len
          ((prepare tok cut strOfPlist mode path max_seq_len input max_out_len).context_window
            - (tok (strOfInput strOfPlist
                (prepare tok cut strOfPlist mode path max_seq_len input max_out_len).input2) : Int)
            - 100) ∧
    generateOne tok cut strOfPlist mode path max_seq_len retry keys orgs st input
        max_out_len outcomes
      = ⟨.result "", st, 0, outcomes⟩ := by
  refine ⟨rfl, ?_⟩
  simp only [generateOne]
  rw [if_pos h]

/-- Witness for C4 at a concrete input (requested output length 0, so the
ceiling is `min 0 _ ≤ 0`). -/
theorem C4_skip_when_no_budget_witness :
    (prepare get_token_len (fun _ => []) (fun _ => "") .off "m" 4096 (.str "hi") 0).max_out_len ≤ 0 ∧
    generateOne get_token_len (fun _ => []) (fun _ => "") .off "m" 4096 2 ["k"] []
        ⟨[], 0, 0⟩ (.str "hi") 0 [.otherResp]
      = ⟨.result "", ⟨[], 0, 0⟩, 0, [.otherResp]⟩ :=
  ⟨by decide,
   (C4_skip_when_no_budget get_token_len (fun _ => []) (fun _ => "") .off "m" 4096 2
     ["k"] [] ⟨[], 0, 0⟩ (.str "hi") 0 [.otherResp] (by decide)).2⟩

/-- Claim C10: whenever the instance-level temperature is not `None`
(default construction gives `0.0`), the request payload is the same for
every per-call temperature argument, and its `temperature` field equals
the instance temperature. -/
theorem C10_temperature_override (instTemp : Option Rat) (t : Rat)
    (h : instTemp = some t) (is_chat : Bool) (path : String) (messages : List Msg)
    (max_tokens : Int) (logprobs : Option Bool) (top_logprobs : Option Nat)
    (c1 c2 : Rat) :
    buildData is_chat path messages max_tokens logprobs top_logprobs
        (generateTemperature instTemp c1)
      = buildData is_chat path messages max_tokens logprobs top_logprobs
          (generateTemperature instTemp c2) ∧
    (buildData is_chat path messages max_tokens logprobs top_logprobs
        (generateTemperature instTemp c1)).lookup "temperature" = some (.q t) := by
  subst h
  refine ⟨rfl, ?_⟩
  cases is_chat <;> cases logprobs <;> cases top_logprobs <;>
    simp [buildData, chatDict, completionDict, remove_none_val, generateTemperature,
      List.lookup]

/-- Witness for C10: a default-constructed instance (temperature `0.0`)
and two different per-call temperatures. -/
theorem C10_temperature_override_witness :
    buildData true "gpt-4" [] 5 (some false) none
        (generateTemperature defaultTemperature (7 / 10))
      = buildData true "gpt-4" [] 5 (some false) none
          (generateTemperature defaultTemperature (1 / 2)) ∧
    (buildData true "gpt-4" [] 5 (some false) none
        (generateTemperature defaultTemperature (7 / 10))).lookup "temperature"
      = some (.q 0) :=
  C10_temperature_override defaultTemperature 0 rfl true "gpt-4" [] 5 (some false)
    none (7 / 10) (1 / 2)

/-- Claim C9: truncation applies only to flat-string inputs with a
non-`'none'` mode. A `PromptList` input is never trimmed — its turn
contents reach the envelope unchanged — and keeps the pattern-derived
context window; a flat string with mode `'none'` likewise passes through
untouched; only the truncating case replaces the window by
`max_seq_len` and rewrites the input through `bin_trim`. -/
theorem C9_truncation_frame (tok : String → Nat) (cut : String → List String)
    (strOfPlist : List PromptItem → String) (mode : TrimMode) (path : String)
    (max_seq_len : Int) (max_out_len : Int) :
    (∀ items : List PromptItem,
      (prepare tok cut strOfPlist mode path max_seq_len (.plist items) max_out_len).input2
        = .plist items ∧
      (prepare tok cut strOfPlist mode path max_seq_len (.plist items) max_out_len).messages
        = items.map msgOfItem ∧
      ((prepare tok cut strOfPlist mode path max_seq_len (.plist items) max_out_len).messages.map
          Msg.content)
        = items.map PromptItem.prompt ∧
      (prepare tok cut strOfPlist mode path max_seq_len (.plist items) max_out_len).context_window
        = contextWindowOf path) ∧
    (∀ s : String, mode = .off →
      (prepare tok cut strOfPlist mode path max_seq_len (.str s) max_out_len).input2 = .str s ∧
      (prepare tok cut strOfPlist mode path max_seq_len (.str s) max_out_len).context_window
        = contextWindowOf path) ∧
    (∀ s : String, mode ≠ .off →
      (prepare tok cut strOfPlist mode path max_seq_len (.str s) max_out_len).context_window
        = max_seq_len ∧
      (prepare tok cut strOfPlist mode path max_seq_len (.str s) max_out_len).input2
        = .str (bin_trim tok cut mode s (max_seq_len - 100 - max_out_len))) := by
  refine ⟨fun items => ?_, fun s h => ?_, fun s h => ?_⟩
  · refine ⟨rfl, rfl, ?_, rfl⟩
    simp [prepare, buildMessages, msgOfItem]
  · subst h
    exact ⟨rfl, rfl⟩
  · rw [prepare, if_neg h]
    exact ⟨rfl, rfl⟩

/-- Witness for C9 at concrete inputs: a trimming case, a mode-`'none'`
case, and a `PromptList` case. -/
theorem C9_truncation_frame_witness :
    (prepare get_token_len (fun _ => []) (fun _ => "") .rear "gpt-4" 4096 (.str "a b") 10).context_window
      = 4096 ∧
    (prepare get_token_len (fun _ => []) (fun _ => "") .off "gpt-4" 4096 (.str "a b") 10).context_window
      = contextWindowOf "gpt-4" ∧
    (prepare get_token_len (fun _ => []) (fun _ => "") .rear "gpt-4" 4096
        (.plist [⟨.HUMAN, "x"⟩]) 10).messages
      = [⟨"user", "x"⟩] :=
  ⟨((C9_truncation_frame get_token_len (fun _ => []) (fun _ => "") .rear "gpt-4" 4096 10).2.2
      "a b" (by decide)).1,
   ((C9_truncation_frame get_token_len (fun _ => []) (fun _ => "") .off "gpt-4" 4096 10).2.1
      "a b" rfl).2,
   ((C9_truncation_frame get_token_len (fun _ => []) (fun _ => "") .rear "gpt-4" 4096 10).1
      [⟨.HUMAN, "x"⟩]).2.1⟩

/-- The binary-search loop never decreases `l`. -/
theorem binSearchLoop_ge (tok : String → Nat) (sep : String) (ws : List String)
    (mode : TrimMode) (budget : Int) :
    ∀ fuel l r, l ≤ binSearchLoop tok sep ws mode budget fuel l r := by
  intro fuel
  induction fuel with
  | zero => intro l r; simp [binSearchLoop]
  | succ n ih =>
    intro l r
    rw [binSearchLoop]
    by_cases hlr : l + 2 < r
    · rw [if_pos hlr]
      by_cases hfit : (tok (frag sep ws mode ((l + r) / 2)) : Int) ≤ budget
      · rw [if_pos hfit]
        refine le_trans ?_ (ih ((l + r) / 2) r)
        have h2 : l * 2 ≤ l + r := by omega
        exact (Nat.le_div_iff_mul_le (by norm_num)).mpr h2
      · rw [if_neg hfit]
        exact ih l ((l + r) / 2)
    · rw [if_neg hlr]

/-- If the fragment for the current lower bound fits the budget, the
fragment for the loop's final lower bound fits it too (`l` is only ever
replaced by a `mid` whose fragment was tested to fit). -/
theorem binSearchLoop_fit (tok : String → Nat) (sep : String) (ws : List String)
    (mode : TrimMode) (budget : Int) :
    ∀ fuel l r, (tok (frag sep ws mode l) : Int) ≤ budget →
      (tok (frag sep ws mode (binSearchLoop tok sep ws mode budget fuel l r)) : Int) ≤ budget := by
  intro fuel
  induction fuel with
  | zero => intro l r h; simpa [binSearchLoop] using h
  | succ n ih =>
    intro l r h
    rw [binSearchLoop]
    by_cases hlr : l + 2 < r
    · rw [if_pos hlr]
      by_cases hfit : (tok (frag sep ws mode ((l + r) / 2)) : Int) ≤ budget
      · rw [if_pos hfit]
        exact ih ((l + r) / 2) r hfit
      · rw [if_neg hfit]
        exact ih l ((l + r) / 2) h
    · rwa [if_neg hlr]

/-- Claim C1 (amended): if the estimated token length of the text is
within budget, `bin_trim` returns it unchanged. Otherwise the result is
the mode-appropriate fragment for some unit count `k ≥ 1`; it is
guaranteed to fit the budget only under the proviso that the one-unit
fragment fits (the search never tests `k = 1`), and it may be the empty
string when the boundary units are empty. -/
theorem C1_bin_trim_amended (tok : String → Nat) (cut : String → List String)
    (mode : TrimMode) (prompt : String) (budget : Int) :
    ((tok prompt : Int) ≤ budget → bin_trim tok cut mode prompt budget = prompt) ∧
    (budget < (tok prompt : Int) →
      ∃ k, 1 ≤ k ∧
        bin_trim tok cut mode prompt budget
          = frag (trimSep prompt) (trimUnits cut prompt) mode k ∧
        ((tok (frag (trimSep prompt) (trimUnits cut prompt) mode 1) : Int) ≤ budget →
          (tok (bin_trim tok cut mode prompt budget) : Int) ≤ budget)) := by
  constructor
  · intro h
    rw [bin_trim, if_pos h]
  · intro h
    have hn : ¬ ((tok prompt : Int) ≤ budget) := by omega
    refine ⟨binSearchLoop tok (trimSep prompt) (trimUnits cut prompt) mode budget
      (trimUnits cut prompt).length 1 (trimUnits cut prompt).length,
      binSearchLoop_ge tok (trimSep prompt) (trimUnits cut prompt) mode budget _ 1 _,
      by rw [bin_trim, if_neg hn], ?_⟩
    intro h1
    rw [bin_trim, if_neg hn]
    exact binSearchLoop_fit tok (trimSep prompt) (trimUnits cut prompt) mode budget _ 1 _ h1

/-- Counterexample to C1 as stated, with the heuristic estimator that the
`OpenAIExtra`/`AsyncOpenAI` subclasses inherit `bin_trim` with: for
`' a,b,c'`, budget 1, mode `rear` (estimated length 3 > 1) the returned
fragment is the empty string; for `'a,b,c d e'`, budget 1, mode `rear`
(estimated length 5 > 1) the returned fragment `'a,b,c'` has estimated
length 3 > 1, exceeding the budget. -/
theorem C1_counterexample :
    1 < get_token_len " a,b,c" ∧
    bin_trim get_token_len (fun _ => []) TrimMode.rear " a,b,c" 1 = "" ∧
    1 < get_token_len "a,b,c d e" ∧
    bin_trim get_token_len (fun _ => []) TrimMode.rear "a,b,c d e" 1 = "a,b,c" ∧
    ¬ ((get_token_len (bin_trim get_token_len (fun _ => []) TrimMode.rear "a,b,c d e" 1) : Int) ≤ 1) := by
  decide

/-- Witness for C1 (amended): a within-budget input is returned
unchanged, and for `'a b c d e f'` with budget 2 (mode `rear`, one-unit
fragment `'a'` fits) the result fits the budget. -/
theorem C1_bin_trim_amended_witness :
    bin_trim get_token_len (fun _ => []) TrimMode.rear "hi" 5 = "hi" ∧
    (get_token_len (bin_trim get_token_len (fun _ => []) TrimMode.rear "a b c d e f" 2) : Int) ≤ 2 := by
  constructor
  · exact (C1_bin_trim_amended get_token_len (fun _ => []) TrimMode.rear "hi" 5).1 (by decide)
  · obtain ⟨k, h1, h2, h3⟩ :=
      (C1_bin_trim_amended get_token_len (fun _ => []) TrimMode.rear "a b c d e f" 2).2
        (by decide)
    exact h3 (by decide)

/-- Counterexample to C2 as stated: with retry count `R = 1`, a script of
three connection errors drives three request attempts — more than `R` —
and the loop is still running (the `continue` on connection errors never
increments `max_num_retries`, so no sequence-independent attempt bound or
termination guarantee exists). -/
theorem C2_counterexample :
    runLoop 1 ["k"] [] ⟨[], 0, 0⟩ 0 [.connError, .connError, .connError]
      = ⟨.pending, ⟨[], 0, 0⟩, 3, []⟩ ∧ 1 < 3 := by
  decide

/-- Claim C2 (amended): only attempts whose outcome falls through the
whole error handler (a response with neither `choices` nor a recognized
`error`) consume retry slots; at most `retry - k` such outcomes are ever
consumed from the script, and if the loop exhausts the budget it raises
the terminal error identifying exactly the configured retry count.
Connection, JSON-decode, rate-limit, quota and invalid-prompt outcomes
consume no slot, so the loop need not terminate on every script. -/
theorem C2_retry_amended (retry : Nat) (keys orgs : List String) :
    ∀ (outcomes : List ApiResponse) (st : PoolState) (k : Nat), k ≤ retry →
      (∀ n, (runLoop retry keys orgs st k outcomes).out = .retriesExhausted n → n = retry) ∧
      countCounted outcomes
        ≤ (retry - k) + countCounted (runLoop retry keys orgs st k outcomes).remaining := by
  intro outcomes
  induction outcomes with
  | nil =>
    intro st k hk
    by_cases hlt : k < retry
    · rw [runLoop, if_pos hlt]
      match hnc : nextCredential keys st.invalid_keys st.key_ctr with
      | .raisedAllInvalid => exact ⟨fun n h => by simp at h, by simp [countCounted]⟩
      | .diverge => exact ⟨fun n h => by simp at h, by simp [countCounted]⟩
      | .got key c => exact ⟨fun n h => by simp at h, by simp [countCounted]⟩
    · rw [runLoop, if_neg hlt]
      exact ⟨fun n h => by simp at h; omega, by simp [countCounted]⟩
  | cons o rest ih =>
    intro st k hk
    by_cases hlt : k < retry
    · rw [runLoop, if_pos hlt]
      match hnc : nextCredential keys st.invalid_keys st.key_ctr with
      | .raisedAllInvalid =>
        exact ⟨fun n h => by simp at h, by dsimp only; omega⟩
      | .diverge =>
        exact ⟨fun n h => by simp at h, by dsimp only; omega⟩
      | .got key c =>
        match o with
        | .connError =>
          obtain ⟨ih1, ih2⟩ := ih ⟨st.invalid_keys, c, advanceOrg orgs st.org_ctr⟩ k hk
          refine ⟨fun n h => ih1 n h, ?_⟩
          simpa [countCounted] using ih2
        | .jsonError =>
          obtain ⟨ih1, ih2⟩ := ih ⟨st.invalid_keys, c, advanceOrg orgs st.org_ctr⟩ k hk
          refine ⟨fun n h => ih1 n h, ?_⟩
          simpa [countCounted] using ih2
        | .success content =>
          exact ⟨fun n h => by simp at h, by simp [countCounted]⟩
        | .otherResp =>
          obtain ⟨ih1, ih2⟩ :=
            ih ⟨st.invalid_keys, c, advanceOrg orgs st.org_ctr⟩ (k + 1) (by omega)
          refine ⟨fun n h => ih1 n h, ?_⟩
          simp only [countCounted]
          omega
        | .errorResp code etype =>
          by_cases h1 : code = "rate_limit_exceeded"
          · simp only [if_pos h1]
            obtain ⟨ih1, ih2⟩ := ih ⟨st.invalid_keys, c, advanceOrg orgs st.org_ctr⟩ k hk
            refine ⟨fun n h => ih1 n h, ?_⟩
            have hc : countCounted (ApiResponse.errorResp code etype :: rest)
                = countCounted rest := by
              simp [countCounted, h1]
            omega
          · simp only [if_neg h1]
            by_cases h2 : code = "insufficient_quota"
            · simp only [if_pos h2]
              obtain ⟨ih1, ih2⟩ :=
                ih ⟨markInvalid key st.invalid_keys, c, advanceOrg orgs st.org_ctr⟩ k hk
              refine ⟨fun n h => ih1 n h, ?_⟩
              have hc : countCounted (ApiResponse.errorResp code etype :: rest)
                  = countCounted rest := by
                simp [countCounted, h2]
              omega
            · simp only [if_neg h2]
              by_cases h3 : code = "invalid_prompt"
              · simp only [if_pos h3]
                have hc : countCounted (ApiResponse.errorResp code etype :: rest)
                    = countCounted rest := by
                  simp [countCounted, h3]
                exact ⟨fun n h => by simp at h, by omega⟩
              · simp only [if_neg h3]
                by_cases h4 : etype = "invalid_prompt"
                · simp only [if_pos h4]
                  have hc : countCounted (ApiResponse.errorResp code etype :: rest)
                      = countCounted rest := by
                    simp [countCounted, h4]
                  exact ⟨fun n h => by simp at h, by omega⟩
                · simp only [if_neg h4]
                  obtain ⟨ih1, ih2⟩ :=
                    ih ⟨st.invalid_keys, c, advanceOrg orgs st.org_ctr⟩ (k + 1) (by omega)
                  refine ⟨fun n h => ih1 n h, ?_⟩
                  have hc : countCounted (ApiResponse.errorResp code etype :: rest)
                      = 1 + countCounted rest := by
                    simp [countCounted, h1, h2, h3, h4]
                  omega
    · rw [runLoop, if_neg hlt]
      exact ⟨fun n h => by simp at h; omega, by dsimp only; omega⟩

/-- Witness for C2 (amended) at a concrete script of three unrecognized
responses with retry count 2: the bound holds and any terminal error
identifies the count 2. -/
theorem C2_retry_amended_witness :
    (∀ n, (runLoop 2 ["k"] [] ⟨[], 0, 0⟩ 0 [.otherResp, .otherResp, .otherResp]).out
        = .retriesExhausted n → n = 2) ∧
    countCounted [.otherResp, .otherResp, .otherResp]
      ≤ (2 - 0) + countCounted
          (runLoop 2 ["k"] [] ⟨[], 0, 0⟩ 0 [.otherResp, .otherResp, .otherResp]).remaining :=
  C2_retry_amended 2 ["k"] [] [.otherResp, .otherResp, .otherResp] ⟨[], 0, 0⟩ 0 (by decide)

/-- Counterexample to C3 as stated: the guard compares the *set* size of
`invalid_keys` with the *list* length of `keys`, so for the pool
`['a', 'a']` with every key marked invalid (`invalid = {'a'}`), the next
call does not raise the resource-exhaustion error — the cursor scan
cycles forever. -/
theorem C3_counterexample :
    (∀ k, k ∈ ["a", "a"] → k ∈ ["a"]) ∧
    nextCredential ["a", "a"] ["a"] 0 = .diverge := by
  decide

/-- Whatever index the cursor scan returns holds a key outside the
invalid set. -/
theorem findValid_sound (keys inv : List String) :
    ∀ fuel ctr c, findValid keys inv fuel ctr = some c →
      ∃ k, keys[c]? = some k ∧ k ∉ inv := by
  intro fuel
  induction fuel with
  | zero => intro ctr c h; simp [findValid] at h
  | succ n ih =>
    intro ctr c h
    rw [findValid] at h
    set c2 := if ctr + 1 = keys.length then 0 else ctr + 1 with hc2
    match hget : keys[c2]? with
    | none => rw [hget] at h; simp at h
    | some k =>
      rw [hget] at h
      dsimp only at h
      by_cases hk : k ∈ inv
      · rw [if_pos hk] at h
        exact ih c2 c h
      · rw [if_neg hk] at h
        simp at h
        exact ⟨k, h ▸ hget, hk⟩

/-- If some index `j` holds a key outside the invalid set and the scan has
at least `distTo keys.length ctr j` steps of fuel, it succeeds. -/
theorem findValid_complete (keys inv : List String) (j : Nat) (kj : String)
    (hj : keys[j]? = some kj) (hkj : kj ∉ inv) :
    ∀ fuel ctr, ctr < keys.length → distTo keys.length ctr j ≤ fuel →
      (findValid keys inv fuel ctr).isSome := by
  have hjlen : j < keys.length := by
    by_contra hc
    rw [List.getElem?_eq_none (by omega)] at hj
    exact Option.noConfusion hj
  intro fuel
  induction fuel with
  | zero =>
    intro ctr hctr hd
    exfalso
    unfold distTo at hd
    by_cases hlt : ctr < j <;> simp [hlt] at hd <;> omega
  | succ n ih =>
    intro ctr hctr hd
    rw [findValid]
    set c2 := if ctr + 1 = keys.length then 0 else ctr + 1 with hc2
    have hc2len : c2 < keys.length := by
      rw [hc2]
      split <;> omega
    match hget : keys[c2]? with
    | none =>
      exfalso
      rw [List.getElem?_eq_none_iff] at hget
      omega
    | some k =>
      dsimp only
      by_cases hk : k ∈ inv
      · rw [if_pos hk]
        have hne : c2 ≠ j := by
          intro he
          rw [he, hj] at hget
          injection hget with hkk
          exact hkj (by rw [hkk]; exact hk)
        refine ih c2 hc2len ?_
        unfold distTo at hd ⊢
        rw [hc2] at hne ⊢
        by_cases hw : ctr + 1 = keys.length <;>
          by_cases hlt : ctr < j <;> simp [hw, hlt] at hd hne ⊢ <;>
          split <;> omega
      · rw [if_neg hk]
        simp

/-- Claim C3 (amended): for a pool of pairwise-distinct keys (and an
invalid set that only ever collects keys of the pool), marking all-but-one
key invalid makes the selection return the one remaining valid key, and
marking all keys invalid makes the next call raise the
resource-exhaustion error. (With duplicate keys in the pool the second
part fails: the scan diverges instead — see the counterexample.) -/
theorem C3_next_credential_amended (keys inv : List String) (ctr : Nat)
    (hnd : keys.Nodup) (hinv : inv.Nodup) (hsub : inv ⊆ keys)
    (hctr : ctr < keys.length) :
    (∀ k, k ∈ keys → k ∉ inv → (∀ k', k' ∈ keys → k' ≠ k → k' ∈ inv) →
      ∃ c, nextCredential keys inv ctr = .got k c) ∧
    ((∀ k, k ∈ keys → k ∈ inv) → nextCredential keys inv ctr = .raisedAllInvalid) := by
  constructor
  · intro k hkmem hkval hrest
    have hlen : inv.length < keys.length := by
      have hsub2 : inv ⊆ keys.erase k := by
        intro x hx
        have hxk : x ≠ k := fun he => hkval (he ▸ hx)
        exact (List.mem_erase_of_ne hxk).mpr (hsub hx)
      have h1 : inv.length ≤ (keys.erase k).length :=
        (List.subperm_of_subset hinv hsub2).length_le
      have h2 : (keys.erase k).length = keys.length - 1 :=
        List.length_erase_of_mem hkmem
      have h3 : 0 < keys.length := List.length_pos.mpr (List.ne_nil_of_mem hkmem)
      omega
    obtain ⟨j, hjlen, hjget⟩ := List.getElem_of_mem hkmem
    have hj? : keys[j]? = some k := by
      rw [List.getElem?_eq_getElem hjlen, hjget]
    have hd : distTo keys.length ctr j ≤ keys.length := by
      unfold distTo
      split <;> omega
    have hsome := findValid_complete keys inv j k hj? hkval keys.length ctr hctr hd
    obtain ⟨c, hc⟩ := Option.isSome_iff_exists.mp hsome
    obtain ⟨k2, hk2get, hk2val⟩ := findValid_sound keys inv keys.length ctr c hc
    have hk2mem : k2 ∈ keys := by
      have : c < keys.length := by
        by_contra hcc
        rw [List.getElem?_eq_none (by omega)] at hk2get
        exact Option.noConfusion hk2get
      rw [List.getElem?_eq_getElem this] at hk2get
      exact (Option.some.injEq _ _ ▸ hk2get) ▸ List.getElem_mem this
    have hk2k : k2 = k := by
      by_contra hne
      exact hk2val (hrest k2 hk2mem hne)
    refine ⟨c, ?_⟩
    rw [nextCredential, if_neg (by omega : ¬ inv.length = keys.length), hc]
    dsimp only
    rw [hk2get]
    dsimp only
    rw [hk2k]
  · intro hall
    have h1 : keys.length ≤ inv.length :=
      (List.subperm_of_subset hnd fun a ha => hall a ha).length_le
    have h2 : inv.length ≤ keys.length :=
      (List.subperm_of_subset hinv hsub).length_le
    rw [nextCredential, if_pos (by omega)]

/-- Witness for C3 (amended) at the concrete pool `['a', 'b']`: with
`'a'` invalid the selection returns `'b'`; with both invalid it raises. -/
theorem C3_next_credential_amended_witness :
    (∃ c, nextCredential ["a", "b"] ["a"] 0 = .got "b" c) ∧
    nextCredential ["a", "b"] ["a", "b"] 0 = .raisedAllInvalid :=
  ⟨(C3_next_credential_amended ["a", "b"] ["a"] 0 (by decide) (by decide)
      (by intro x hx; fin_cases hx; decide) (by decide)).1
      "b" (by decide) (by decide) (by decide),
   (C3_next_credential_amended ["a", "b"] ["a", "b"] 0 (by decide) (by decide)
      (by intro x hx; fin_cases hx <;> decide) (by decide)).2
      (by decide)⟩

/-- Counterexample to C5 as stated: an error response whose *type* equals
`'invalid_prompt'` but whose code is `'insufficient_quota'` is dispatched
by the earlier code check — the loop marks the key invalid (pool state
changes) and retries instead of returning the empty string; here, with a
single key, the retry then raises the all-keys-invalid error. -/
theorem C5_counterexample :
    runLoop 2 ["k"] [] ⟨[], 0, 0⟩ 0 [.errorResp "insufficient_quota" "invalid_prompt"]
      = ⟨.allKeysInvalid, ⟨["k"], 0, 0⟩, 1, []⟩ := by
  decide

/-- Claim C5 (amended): when the selection succeeds and the attempt's
error response has code `'invalid_prompt'` — or type `'invalid_prompt'`
with a code matching neither of the earlier-checked
`'rate_limit_exceeded'` / `'insufficient_quota'` branches — `_generate`
returns the empty string at once: exactly this one outcome is consumed,
the rest of the script is untouched, and the invalid-key set is exactly
as it was (only the cursors moved, during the selection that preceded the
response). -/
theorem C5_invalid_prompt_amended (retry : Nat) (keys orgs : List String)
    (st : PoolState) (k : Nat) (code etype key : String) (c : Nat)
    (rest : List ApiResponse)
    (hk : k < retry)
    (hsel : nextCredential keys st.invalid_keys st.key_ctr = .got key c)
    (hip : code = "invalid_prompt" ∨
      (etype = "invalid_prompt" ∧ code ≠ "rate_limit_exceeded" ∧
        code ≠ "insufficient_quota")) :
    runLoop retry keys orgs st k (.errorResp code etype :: rest)
      = ⟨.result "", ⟨st.invalid_keys, c, advanceOrg orgs st.org_ctr⟩, 1, rest⟩ := by
  rw [runLoop, if_pos hk, hsel]
  rcases hip with h | ⟨ht, h1, h2⟩
  · subst h
    dsimp only
    rw [if_neg (by decide), if_neg (by decide), if_pos rfl]
  · subst ht
    dsimp only
    rw [if_neg h1, if_neg h2]
    by_cases h3 : code = "invalid_prompt"
    · rw [if_pos h3]
    · rw [if_neg h3, if_pos rfl]

/-- Witness for C5 (amended) at a concrete run: one key, retry budget 2,
an invalid-prompt error followed by an unread script entry. -/
theorem C5_invalid_prompt_amended_witness :
    runLoop 2 ["k"] [] ⟨[], 0, 0⟩ 0 [.errorResp "invalid_prompt" "x", .otherResp]
      = ⟨.result "", ⟨[], 0, 0⟩, 1, [.otherResp]⟩ :=
  C5_invalid_prompt_amended 2 ["k"] [] ⟨[], 0, 0⟩ 0 "invalid_prompt" "x" "k" 0
    [.otherResp] (by decide) (by decide) (Or.inl rfl)

/-- Claim C8: the source intends the selection block to be a critical
section, but `with Lock():` acquires a freshly constructed lock each
time, so concurrent callers are not mutually excluded. Under the
resulting free interleaving, two workers on the pool `['a', 'b']`
(empty invalid set, cursor 0) can both read cursor 0, both write 1, and
both select `'b'` with the cursor advanced once — whereas the intended
atomic execution of the same two calls yields `'b'` then `'a'`. -/
theorem C8_unprotected_cursor_demo :
    runSched ["a", "b"] [] [true, false, true, false, true, false]
        (.loopStart, .loopStart, 0)
      = (.selected "b", .selected "b", 1) ∧
    nextCredential ["a", "b"] [] 0 = .got "b" 1 ∧
    nextCredential ["a", "b"] [] 1 = .got "a" 0 := by
  decide

/-- Definitional unfolding of `reFindRuns` on `[]`. -/
theorem reFindRuns_nil (p : Char → Bool) : reFindRuns p [] = [] := rfl

/-- Definitional unfolding of `reFindRuns` on a cons cell. -/
theorem reFindRuns_cons (p : Char → Bool) (c : Char) (rest : List Char) :
    reFindRuns p (c :: rest)
      = if p c then
          match reFindRuns p rest, rest with
          | w :: ws, c2 :: _ =>
            if p c2 then (c :: w) :: ws else [c] :: w :: ws
          | _, _ => [[c]]
        else reFindRuns p rest := rfl

/-- A run starting with a matching character is returned as a non-empty
list of runs. -/
theorem reFindRuns_ne_nil_of_pos (p : Char → Bool) (c : Char) (t : List Char)
    (hp : p c = true) : reFindRuns p (c :: t) ≠ [] := by
  rw [reFindRuns_cons, if_pos hp]
  cases hr : reFindRuns p t with
  | nil => cases t <;> simp
  | cons w ws =>
    cases t with
    | nil => simp
    | cons c2 t' => by_cases hp2 : p c2 <;> simp [hp2]

/-- The run lengths of `re.findall r'[class]+'` sum to the number of
matching characters. -/
theorem reFindRuns_sum (p : Char → Bool) :
    ∀ s : List Char, ((reFindRuns p s).map List.length).sum = (s.filter p).length := by
  intro s
  induction s with
  | nil => rfl
  | cons c rest ih =>
    by_cases hp : p c
    · cases rest with
      | nil => simp [reFindRuns_cons, reFindRuns_nil, hp]
      | cons c2 rest' =>
        by_cases hp2 : p c2
        · obtain ⟨w, ws, hws⟩ :=
            List.exists_cons_of_ne_nil (reFindRuns_ne_nil_of_pos p c2 rest' hp2)
          rw [reFindRuns_cons, if_pos hp, hws]
          dsimp only
          rw [if_pos hp2]
          rw [hws] at ih
          simp only [List.map_cons, List.sum_cons, List.length_cons] at ih ⊢
          simp only [List.filter_cons_of_pos hp, List.length_cons]
          omega
        · cases hr : reFindRuns p (c2 :: rest') with
          | nil =>
            rw [reFindRuns_cons, if_pos hp, hr]
            rw [hr] at ih
            simp only [List.map_nil, List.sum_nil] at ih
            dsimp only
            simp only [List.filter_cons_of_pos hp, List.length_cons]
            simp [← ih]
          | cons w ws =>
            rw [reFindRuns_cons, if_pos hp, hr]
            rw [hr] at ih
            dsimp only
            rw [if_neg hp2]
            simp only [List.map_cons, List.sum_cons, List.length_cons,
              List.length_nil] at ih ⊢
            simp only [List.filter_cons_of_pos hp, List.length_cons]
            omega
    · rw [reFindRuns_cons, if_neg hp, List.filter_cons_of_neg hp]
      exact ih

/-- Every returned run is non-empty and consists of matching characters. -/
theorem reFindRuns_mem (p : Char → Bool) :
    ∀ (s : List Char) (w : List Char), w ∈ reFindRuns p s →
      w ≠ [] ∧ ∀ c ∈ w, p c = true := by
  intro s
  induction s with
  | nil => intro w hw; simp [reFindRuns_nil] at hw
  | cons c rest ih =>
    intro w hw
    by_cases hp : p c
    · cases rest with
      | nil =>
        rw [reFindRuns_cons, if_pos hp] at hw
        simp at hw
        subst hw
        exact ⟨by simp, by simpa using hp⟩
      | cons c2 rest' =>
        by_cases hp2 : p c2
        · obtain ⟨w0, ws, hws⟩ :=
            List.exists_cons_of_ne_nil (reFindRuns_ne_nil_of_pos p c2 rest' hp2)
          rw [reFindRuns_cons, if_pos hp, hws] at hw
          dsimp only at hw
          rw [if_pos hp2] at hw
          rcases List.mem_cons.mp hw with hw1 | hw2
          · subst hw1
            obtain ⟨hne0, hall0⟩ := ih w0 (by rw [hws]; exact List.mem_cons_self w0 ws)
            refine ⟨by simp, fun x hx => ?_⟩
            rcases List.mem_cons.mp hx with hx1 | hx2
            · subst hx1; exact hp
            · exact hall0 x hx2
          · exact ih w (by rw [hws]; exact List.mem_cons_of_mem w0 hw2)
        · cases hr : reFindRuns p (c2 :: rest') with
          | nil =>
            rw [reFindRuns_cons, if_pos hp, hr] at hw
            dsimp only at hw
            simp at hw
            subst hw
            exact ⟨by simp, by simpa using hp⟩
          | cons w0 ws =>
            rw [reFindRuns_cons, if_pos hp, hr] at hw
            dsimp only at hw
            rw [if_neg hp2] at hw
            rcases List.mem_cons.mp hw with hw1 | hw2
            · subst hw1
              exact ⟨by simp, by simpa using hp⟩
            · exact ih w (by rw [hr]; exact hw2)
    · rw [reFindRuns_cons, if_neg hp] at hw
      exact ih w hw

/-- Definitional unfolding of `pySplitWs` on a cons cell. -/
theorem pySplitWs_cons (c : Char) (rest : List Char) :
    pySplitWs (c :: rest)
      = if isPyWs c then pySplitWs rest
        else
          match rest with
          | [] => [[c]]
          | c2 :: _ =>
            if isPyWs c2 then [c] :: pySplitWs rest
            else
              match pySplitWs rest with
              | [] => [[c]]
              | w :: ws => (c :: w) :: ws := rfl

/-- `part.split()` of a non-empty whitespace-free fragment is just the
fragment. -/
theorem pySplitWs_single :
    ∀ w : List Char, w ≠ [] → (∀ c ∈ w, isPyWs c = false) → pySplitWs w = [w] := by
  intro w
  induction w with
  | nil => intro h; exact absurd rfl h
  | cons c rest ih =>
    intro _ hall
    have hc : isPyWs c = false := hall c (List.mem_cons_self c rest)
    rw [pySplitWs_cons, if_neg (by simp [hc])]
    cases rest with
    | nil => rfl
    | cons c2 rest' =>
      have hc2 : isPyWs c2 = false := hall c2 (by simp)
      dsimp only
      rw [if_neg (by simp [hc2])]
      rw [ih (by simp) fun x hx => hall x (List.mem_cons_of_mem c hx)]

/-- Latin alphanumeric characters are not Python whitespace. -/
theorem alnum_not_ws (c : Char) (h : isLatinAlnum c = true) : isPyWs c = false := by
  simp only [isLatinAlnum, Bool.or_eq_true, Bool.and_eq_true,
    decide_eq_true_eq] at h
  simp only [isPyWs, Bool.or_eq_false_iff, decide_eq_false_iff_not]
  omega

/-- A map summing to the list length when every image is 1. -/
theorem sum_map_one {α : Type} (f : α → Nat) :
    ∀ l : List α, (∀ x ∈ l, f x = 1) → (l.map f).sum = l.length := by
  intro l
  induction l with
  | nil => intro _; rfl
  | cons x rest ih =>
    intro hall
    simp only [List.map_cons, List.sum_cons, List.length_cons,
      hall x (List.mem_cons_self x rest),
      ih fun y hy => hall y (List.mem_cons_of_mem x hy)]
    omega

/-- Claim C7: the heuristic token estimator returns exactly the number of
maximal Latin-alphanumeric runs plus the number of individual CJK
characters; it is a (pure, deterministic) function of the text with a
non-negative count, and a character that is neither Latin alphanumeric
nor CJK contributes zero tokens. -/
theorem C7_token_estimator :
    (∀ prompt : String,
      get_token_len prompt
        = (reFindRuns isLatinAlnum prompt.data).length
          + (prompt.data.filter isCJKFull).length) ∧
    (∀ prompt : String, 0 ≤ get_token_len prompt) ∧
    (∀ c : Char, isLatinAlnum c = false → isCJKFull c = false →
      get_token_len ⟨[c]⟩ = 0) := by
  refine ⟨fun prompt => ?_, fun _ => Nat.zero_le _, fun c h1 h2 => ?_⟩
  · rw [get_token_len]
    congr 1
    · refine sum_map_one _ _ fun w hw => ?_
      obtain ⟨hne, hall⟩ := reFindRuns_mem isLatinAlnum prompt.data w hw
      rw [pySplitWs_single w hne fun ch hch => alnum_not_ws ch (hall ch hch)]
      rfl
    · exact reFindRuns_sum isCJKFull prompt.data
  · simp [get_token_len, reFindRuns_cons, reFindRuns_nil, h1, h2]

/-- Witness for C7 at concrete inputs: a mixed ASCII text and the
punctuation character `,`. -/
theorem C7_token_estimator_witness :
    get_token_len "hello, world"
      = (reFindRuns isLatinAlnum "hello, world".data).length
        + ("hello, world".data.filter isCJKFull).length ∧
    get_token_len ⟨[',']⟩ = 0 :=
  ⟨C7_token_estimator.1 "hello, world",
   C7_token_estimator.2.2 ',' (by decide) (by decide)⟩

end OC
